import Mathlib

/-!
Verification of the core of the code-sentinel review pipeline: the unified
diff parsing and comment position resolution in
`src/platforms/github/diff-parser.ts`, the comment publication in
`src/platforms/github/adapter.ts`, severity filtering and the effort gate in
`src/engine/context.ts`, inline comment formatting in
`src/output/formatter.ts`, and model response validation in
`src/llm/ollama.ts`.

Line numbers and counters are modelled as `Int` (JavaScript numbers are
integers in every reachable state of this code), sets as `Finset Int`
(membership-only use of the JS `Set`), and strings as Lean `String`s
operating on their character lists.
-/

namespace Sentinel

/-! ## String helpers mirroring the JavaScript primitives -/

/-- JavaScript `s.split('\n')` on the character list: every `'\n'` separates,
an empty string yields `[""]`, a trailing separator yields a trailing `""`. -/
def splitLinesAux : List Char → List Char → List String
  | [], acc => [String.mk acc.reverse]
  | c :: rest, acc =>
    if c = '\n' then String.mk acc.reverse :: splitLinesAux rest []
    else splitLinesAux rest (c :: acc)

/-- JavaScript `patch.split('\n')`. -/
def splitLines (s : String) : List String :=
  splitLinesAux s.toList []

/-- JavaScript `s.startsWith(p)`. -/
def strStartsWith (s p : String) : Bool :=
  p.toList.isPrefixOf s.toList

/-! ## The hunk header pattern

The source matches lines against the regular expression
`^@@\s+-(\d+)(?:,(\d+))?\s+\+(\d+)(?:,(\d+))?\s+@@`.  The functions below
are a character-level model of that pattern: greedy digit runs, one or more
whitespace characters for `\s+`, and an optional `,digits` group whose
failure after a comma fails the whole match (as the regex does, since `\s+`
cannot then consume the comma). -/

/-- Characters matched by the regex class `\s` (ASCII part). -/
def isSpaceCh (c : Char) : Bool :=
  c = ' ' || c = '\t' || c = '\n' || c = '\r' || c.toNat = 11 || c.toNat = 12

def isDigitCh (c : Char) : Bool :=
  '0' ≤ c && c ≤ '9'

def digitVal (c : Char) : Nat :=
  c.toNat - '0'.toNat

/-- `\d+`: one or more digits, greedily, returning their numeric value. -/
def takeDigits (cs : List Char) : Option (Nat × List Char) :=
  let ds := cs.takeWhile isDigitCh
  if ds.isEmpty then none
  else some (ds.foldl (fun n c => n * 10 + digitVal c) 0, cs.dropWhile isDigitCh)

/-- `\s+`: one or more whitespace characters, greedily. -/
def skipSpaces1 (cs : List Char) : Option (List Char) :=
  match cs with
  | c :: rest => if isSpaceCh c then some (rest.dropWhile isSpaceCh) else none
  | [] => none

/-- `(?:,(\d+))?`: an optional comma-prefixed count.  A comma not followed by
digits fails the surrounding match, exactly as the regex does. -/
def commaDigits (cs : List Char) : Option (Option Nat × List Char) :=
  match cs with
  | c :: rest =>
    if c = ',' then
      match takeDigits rest with
      | some (n, rest2) => some (some n, rest2)
      | none => none
    else some (none, cs)
  | [] => some (none, cs)

/-- The part of the hunk-header pattern after the leading `@@`. -/
def afterAts (cs : List Char) : Option (Nat × Option Nat × Nat × Option Nat) :=
  match skipSpaces1 cs with
  | none => none
  | some cs1 =>
    match cs1 with
    | c :: cs2 =>
      if c = '-' then
        match takeDigits cs2 with
        | none => none
        | some (oldStart, cs3) =>
          match commaDigits cs3 with
          | none => none
          | some (oldCount, cs4) =>
            match skipSpaces1 cs4 with
            | none => none
            | some cs5 =>
              match cs5 with
              | c2 :: cs6 =>
                if c2 = '+' then
                  match takeDigits cs6 with
                  | none => none
                  | some (newStart, cs7) =>
                    match commaDigits cs7 with
                    | none => none
                    | some (newCount, cs8) =>
                      match skipSpaces1 cs8 with
                      | none => none
                      | some cs9 =>
                        match cs9 with
                        | d1 :: d2 :: _ =>
                          if d1 = '@' && d2 = '@' then
                            some (oldStart, oldCount, newStart, newCount)
                          else none
                        | _ => none
                else none
              | [] => none
      else none
    | [] => none

/-- `line.match(/^@@\s+-(\d+)(?:,(\d+))?\s+\+(\d+)(?:,(\d+))?\s+@@/)`,
returning the captured numbers `(oldStart, oldCount?, newStart, newCount?)`. -/
def matchHunkHeaderChars (cs : List Char) : Option (Nat × Option Nat × Nat × Option Nat) :=
  match cs with
  | c1 :: rest1 =>
    if c1 = '@' then
      match rest1 with
      | c2 :: rest2 => if c2 = '@' then afterAts rest2 else none
      | [] => none
    else none
  | [] => none

/-! ## The diff data model (`diff-parser.ts`) -/

inductive DiffLineType where
  | add
  | remove
  | context
deriving DecidableEq

/-- `DiffLine` of `diff-parser.ts`. -/
structure DiffLine where
  newLine : Int
  oldLine : Option Int
  type : DiffLineType
deriving DecidableEq

/-- `DiffHunk` of `diff-parser.ts`. -/
structure DiffHunk where
  lines : List DiffLine
  newStart : Int
  newCount : Int
deriving DecidableEq

/-- `ParsedDiff` of `diff-parser.ts`. -/
structure ParsedDiff where
  validNewLines : Finset Int
  validOldLines : Finset Int
  hunks : List DiffHunk
deriving DecidableEq

def emptyParsedDiff : ParsedDiff :=
  { validNewLines := ∅, validOldLines := ∅, hunks := [] }

/-- The running state of the single pass of `parsePatch`. -/
structure ParseState where
  result : ParsedDiff
  currentHunk : Option DiffHunk
  oldLineNum : Int
  newLineNum : Int

/-- Pushing the current hunk, if any, onto the result (`result.hunks.push`). -/
def closeHunk (r : ParsedDiff) (h : Option DiffHunk) : ParsedDiff :=
  match h with
  | some hk => { r with hunks := r.hunks ++ [hk] }
  | none => r

/-- One iteration of the `for (const line of lines)` loop of `parsePatch`. -/
def processLine (st : ParseState) (line : String) : ParseState :=
  match matchHunkHeaderChars line.toList with
  | some (oldStart, _oldCount, newStart, newCount) =>
    { result := closeHunk st.result st.currentHunk
      currentHunk := some { lines := [], newStart := (newStart : Int),
                            newCount := ((newCount.getD 1 : Nat) : Int) }
      oldLineNum := (oldStart : Int)
      newLineNum := (newStart : Int) }
  | none =>
    match st.currentHunk with
    | none => st
    | some hk =>
      if strStartsWith line "+" && !strStartsWith line "+++" then
        { result := { st.result with
            validNewLines := insert st.newLineNum st.result.validNewLines }
          currentHunk := some { hk with
            lines := hk.lines ++ [⟨st.newLineNum, none, .add⟩] }
          oldLineNum := st.oldLineNum
          newLineNum := st.newLineNum + 1 }
      else if strStartsWith line "-" && !strStartsWith line "---" then
        { result := { st.result with
            validOldLines := insert st.oldLineNum st.result.validOldLines }
          currentHunk := some { hk with
            lines := hk.lines ++ [⟨st.newLineNum, some st.oldLineNum, .remove⟩] }
          oldLineNum := st.oldLineNum + 1
          newLineNum := st.newLineNum }
      else if strStartsWith line " " || line == "" then
        { result := { st.result with
            validNewLines := insert st.newLineNum st.result.validNewLines
            validOldLines := insert st.oldLineNum st.result.validOldLines }
          currentHunk := some { hk with
            lines := hk.lines ++ [⟨st.newLineNum, some st.oldLineNum, .context⟩] }
          oldLineNum := st.oldLineNum + 1
          newLineNum := st.newLineNum + 1 }
      else st

/-- The effect of one context line on the parse state (the third branch of
`processLine`), given the current hunk. -/
def ctxStep (st : ParseState) (hk : DiffHunk) : ParseState :=
  { result := { st.result with
      validNewLines := insert st.newLineNum st.result.validNewLines
      validOldLines := insert st.oldLineNum st.result.validOldLines }
    currentHunk := some { hk with
      lines := hk.lines ++ [⟨st.newLineNum, some st.oldLineNum, .context⟩] }
    oldLineNum := st.oldLineNum + 1
    newLineNum := st.newLineNum + 1 }

/-- The body of `parsePatch` once the patch has been split into lines. -/
def parsePatchLines (lines : List String) : ParsedDiff :=
  let st := lines.foldl processLine
    { result := emptyParsedDiff, currentHunk := none, oldLineNum := 0, newLineNum := 0 }
  closeHunk st.result st.currentHunk

/-- `parsePatch(patch: string | undefined)` of `diff-parser.ts`.  A missing
patch and the empty string (both falsy) return the empty index; the function
is total, it returns a `ParsedDiff` on every input. -/
def parsePatch (patch : Option String) : ParsedDiff :=
  match patch with
  | none => emptyParsedDiff
  | some s => if s = "" then emptyParsedDiff else parsePatchLines (splitLines s)

/-- `isValidCommentLine` of `diff-parser.ts`. -/
def isValidCommentLine (line : Int) (parsedDiff : ParsedDiff) : Bool :=
  line ∈ parsedDiff.validNewLines

/-- The `for (let offset = 1; offset <= maxDistance; offset++)` loop of
`findNearestValidLine`: `fuel` is the number of remaining iterations. -/
def searchNearby (valid : Finset Int) (target : Int) : Int → Nat → Option Int
  | _, 0 => none
  | offset, fuel + 1 =>
    if target - offset ∈ valid then some (target - offset)
    else if target + offset ∈ valid then some (target + offset)
    else searchNearby valid target (offset + 1) fuel

/-- `findNearestValidLine(targetLine, parsedDiff, maxDistance)` of
`diff-parser.ts`; the source default for `maxDistance` is 3. -/
def findNearestValidLine (targetLine : Int) (parsedDiff : ParsedDiff)
    (maxDistance : Nat) : Option Int :=
  if targetLine ∈ parsedDiff.validNewLines then some targetLine
  else searchNearby parsedDiff.validNewLines targetLine 1 maxDistance

/-- A context line of a patch: begins with a space, or is empty. -/
def isContextLine (l : String) : Bool :=
  strStartsWith l " " || l == ""

/-! ## Review data model (`llm/types.ts`, `platforms/types.ts`)

Severity, category, status and role are string unions in TypeScript and are
modelled as `String`, which is what the runtime checks of the code operate
on. -/

/-- `ReviewIssue` of `llm/types.ts`. -/
structure ReviewIssue where
  severity : String
  category : String
  file : String
  line : Option Int
  endLine : Option Int
  title : String
  description : String
  suggestion : Option String
  codeBlock : Option String
deriving DecidableEq

/-- `ReviewResponse` of `llm/types.ts`. -/
structure ReviewResponse where
  summary : String
  effortScore : Int
  issues : List ReviewIssue
deriving DecidableEq

/-- `ReviewComment` of `platforms/types.ts` (side is `'LEFT' | 'RIGHT'`). -/
structure ReviewComment where
  path : String
  line : Int
  body : String
  side : String
deriving DecidableEq

/-- `FileContext` of `llm/types.ts`. -/
structure FileContext where
  path : String
  content : String
  role : String
deriving DecidableEq

/-- `ChangedFile` of `platforms/types.ts`. -/
structure ChangedFile where
  filename : String
  status : String
  additions : Int
  deletions : Int
  patch : Option String
  previousFilename : Option String
deriving DecidableEq

/-- The fields of the configured `config.review` object used by
`ReviewAnalyzer` (`config/schema.ts`). -/
structure ReviewConfig where
  min_severity : String
  skip_if_effort_below : Int
deriving DecidableEq

/-! ## Severity filter and effort gate (`engine/context.ts`, `ReviewAnalyzer`) -/

/-- The fixed severity order of `filterBySeverity`. -/
def severityOrder : List String :=
  ["critical", "warning", "suggestion", "nitpick"]

/-- JavaScript `Array.prototype.indexOf`: index of the first occurrence, or
-1 when the element does not occur. -/
def jsIndexOfAux : List String → String → Nat → Int
  | [], _, _ => -1
  | a :: as, x, i => if a = x then (i : Int) else jsIndexOfAux as x (i + 1)

def jsIndexOf (l : List String) (x : String) : Int :=
  jsIndexOfAux l x 0

/-- `ReviewAnalyzer.filterBySeverity`, with the configured
`config.review.min_severity` as a parameter. -/
def filterBySeverity (minSeverity : String) (issues : List ReviewIssue) : List ReviewIssue :=
  let minIndex := jsIndexOf severityOrder minSeverity
  issues.filter (fun issue => decide (jsIndexOf severityOrder issue.severity ≤ minIndex))

/-- `AnalysisResult` of `engine/context.ts`. -/
structure AnalysisResult where
  response : ReviewResponse
  filteredIssues : List ReviewIssue
  skipped : Bool
  skipReason : Option String
deriving DecidableEq

/-- The tail of `ReviewAnalyzer.analyze` from the point where the model
response is in hand: the effort-threshold gate followed by severity
filtering (`engine/context.ts` lines 237-254). -/
def analyzeResponse (config : ReviewConfig) (response : ReviewResponse) : AnalysisResult :=
  if response.effortScore < config.skip_if_effort_below then
    { response := response
      filteredIssues := []
      skipped := true
      skipReason := some ("PR effort score (" ++ toString response.effortScore ++
        ") below threshold (" ++ toString config.skip_if_effort_below ++ ")") }
  else
    { response := response
      filteredIssues := filterBySeverity config.min_severity response.issues
      skipped := false
      skipReason := none }

/-! ## Output projection (`output/formatter.ts`) -/

/-- `OutputFormatter.getSeverityIcon`. -/
def getSeverityIcon (severity : String) : String :=
  if severity = "critical" then (Char.ofNat 0x1F534).toString
  else if severity = "warning" then (Char.ofNat 0x1F7E1).toString
  else if severity = "suggestion" then (Char.ofNat 0x1F4A1).toString
  else if severity = "nitpick" then (Char.ofNat 0x1F4DD).toString
  else (Char.ofNat 0x2139).toString

/-- `OutputFormatter.formatInlineComment`.  An empty suggestion or code
block string is falsy in the source and hence omitted. -/
def formatInlineComment (issue : ReviewIssue) : String :=
  let l1 := [getSeverityIcon issue.severity ++ " **" ++ issue.title ++ "**", "",
             issue.description]
  let l2 := match issue.suggestion with
    | some s => if s = "" then l1 else l1 ++ ["", "**Suggestion:** " ++ s]
    | none => l1
  let l3 := match issue.codeBlock with
    | some cb => if cb = "" then l2 else l2 ++ ["", "```", cb, "```"]
    | none => l2
  String.intercalate "\n" (l3 ++ ["",
    "<sub>Category: " ++ issue.category ++ " | Severity: " ++ issue.severity ++ "</sub>"])

/-- `OutputFormatter.formatInlineComments`, with the configured
`config.output.max_inline_comments` as a parameter. -/
def formatInlineComments (maxComments : Nat) (issues : List ReviewIssue) : List ReviewComment :=
  let issuesWithLines := issues.filter (fun i => i.line.isSome)
  (issuesWithLines.take maxComments).map (fun issue =>
    { path := issue.file
      line := issue.line.getD 0
      body := formatInlineComment issue
      side := "RIGHT" })

/-! ## Inline comment publication (`platforms/github/adapter.ts`) -/

/-- The provenance note prepended when a comment is moved to a nearby line:
`*(Note: Originally for line ${comment.line})*\n\n${comment.body}`. -/
def provenanceNote (origLine : Int) (body : String) : String :=
  "*(Note: Originally for line " ++ toString origLine ++ ")*\n\n" ++ body

/-- One iteration of the validation loop of
`GitHubAdapter.postInlineComments`: the accumulator carries the
`validComments` list and the `skippedCount`. -/
def processComment (fileDiffs : String → Option ParsedDiff)
    (acc : List ReviewComment × Nat) (comment : ReviewComment) :
    List ReviewComment × Nat :=
  match fileDiffs comment.path with
  | none => (acc.1, acc.2 + 1)
  | some parsedDiff =>
    match findNearestValidLine comment.line parsedDiff 3 with
    | none => (acc.1, acc.2 + 1)
    | some validLine =>
      (acc.1 ++ [{ path := comment.path
                   line := validLine
                   body := if validLine = comment.line then comment.body
                           else provenanceNote comment.line comment.body
                   side := comment.side }], acc.2)

/-- The `validComments` list and `skippedCount` computed by
`GitHubAdapter.postInlineComments` before hitting the network, for a given
`fileDiffs` map. -/
def buildValidComments (fileDiffs : String → Option ParsedDiff)
    (comments : List ReviewComment) : List ReviewComment × Nat :=
  comments.foldl (processComment fileDiffs) ([], 0)

/-! ## Related file discovery (`engine/context.ts`, `ContextCollector`)

The platform collaborator and the node `path` functions are external; they
enter the model as an opaque environment.  `getFilesInDirectory` returning
`none` models the call rejecting (caught by the `try`/`catch` of
`findSiblingFiles`); `getFileContent` returns `none` on failure, as the
GitHub adapter does. -/

structure PlatformEnv where
  getFilesInDirectory : String → String → Option (List String)
  getFileContent : String → Option String
  dirname : String → String
  extname : String → String

/-- `ContextCollector.truncateForContext`; the source default for
`maxLines` is 100. -/
def truncateForContext (content : String) (maxLines : Nat) : String :=
  let lines := splitLines content
  if lines.length ≤ maxLines then content
  else String.intercalate "\n" (lines.take maxLines) ++
    "\n... (truncated, " ++ toString (lines.length - maxLines) ++ " more lines)"

/-- The body of the sibling loop of `ContextCollector.findSiblingFiles`:
skip paths already seen (or the file itself), fetch content, keep the
sibling with truncated content when the fetch succeeds. -/
def siblingStep (env : PlatformEnv) (filePath : String) (exclude : Finset String)
    (results : List FileContext) (siblingPath : String) : List FileContext :=
  if siblingPath ∈ exclude ∨ siblingPath = filePath then results
  else
    match env.getFileContent siblingPath with
    | some content =>
      results ++ [{ path := siblingPath
                    content := truncateForContext content 100
                    role := "sibling" }]
    | none => results

/-- `ContextCollector.findSiblingFiles`: list the directory under the
`dir/*.ext` pattern, look at the first two entries, and collect those that
are new and fetchable. -/
def findSiblingFiles (env : PlatformEnv) (filePath : String)
    (exclude : Finset String) : List FileContext :=
  match env.getFilesInDirectory (env.dirname filePath)
      (env.dirname filePath ++ "/*" ++ env.extname filePath) with
  | none => []
  | some siblings =>
    (siblings.take 2).foldl (siblingStep env filePath exclude) []

/-- The body of the loop of `ContextCollector.collectRelatedFiles`: collect
the next file's siblings (excluding everything seen so far) and add their
paths to the seen set. -/
def relatedStep (env : PlatformEnv) (acc : List FileContext × Finset String)
    (file : ChangedFile) : List FileContext × Finset String :=
  (acc.1 ++ findSiblingFiles env file.filename acc.2,
   (findSiblingFiles env file.filename acc.2).foldl
     (fun s sib => insert sib.path s) acc.2)

/-- `ContextCollector.collectRelatedFiles`: the `seenPaths` set starts as
the changed-file name set and grows with each discovered sibling; the
result is capped at 5. -/
def collectRelatedFiles (env : PlatformEnv) (changedFiles : List ChangedFile) :
    List FileContext :=
  ((changedFiles.foldl (relatedStep env)
    ([], (changedFiles.map (fun f => f.filename)).toFinset)).1).take 5

/-! ## Model response validation (`llm/ollama.ts`, `validateResponse`)

The raw model output is dynamically typed JSON; a field is either a number,
a string, or some other value, and may be absent.  JavaScript numbers are
modelled as rationals; `Math.round` is `⌊x + 1/2⌋`. -/

inductive RawVal where
  | vnum : Rat → RawVal
  | vstr : String → RawVal
  | vother : RawVal
deriving DecidableEq

/-- A raw issue entry as `validateResponse` sees it. -/
structure RawIssue where
  severity : Option RawVal
  category : Option RawVal
  file : Option RawVal
  line : Option RawVal
  endLine : Option RawVal
  title : Option RawVal
  description : Option RawVal
  suggestion : Option RawVal
  codeBlock : Option RawVal
deriving DecidableEq

/-- A raw parsed response as `validateResponse` sees it.  `issues = none`
models a missing or non-array `issues` field; a `none` entry models a falsy
array element. -/
structure RawResponse where
  summary : Option RawVal
  effortScore : Option RawVal
  issues : Option (List (Option RawIssue))
deriving DecidableEq

/-- `typeof v === 'string'`. -/
def isStringField : Option RawVal → Bool
  | some (.vstr _) => true
  | _ => false

/-- The five required string fields checked by the issue filter of
`validateResponse`. -/
def hasRequiredFields (i : RawIssue) : Bool :=
  isStringField i.severity && isStringField i.category && isStringField i.file &&
  isStringField i.title && isStringField i.description

/-- JavaScript `Math.round`: half-up toward positive infinity. -/
def jsRound (q : Rat) : Int :=
  ⌊q + 1 / 2⌋

structure ValidatedResponse where
  summary : String
  effortScore : Int
  issues : List RawIssue
deriving DecidableEq

/-- `OllamaProvider.validateResponse`. -/
def validateResponse (r : RawResponse) : ValidatedResponse :=
  let summary := match r.summary with
    | some (.vstr s) => if s = "" then "Unable to generate summary." else s
    | _ => "Unable to generate summary."
  let e0 : Rat := match r.effortScore with
    | some (.vnum q) => if q = 0 then 3 else q
    | _ => 3
  let effortScore : Int := max 1 (min 5 (jsRound e0))
  let issues := match r.issues with
    | none => []
    | some l => l.filterMap (fun oi =>
        match oi with
        | some i => if hasRequiredFields i then some i else none
        | none => none)
  { summary := summary, effortScore := effortScore, issues := issues }

/-- A sample raw issue with all five required fields present as strings. -/
def sampleRawIssue : RawIssue :=
  { severity := some (.vstr "warning"), category := some (.vstr "bugs"),
    file := some (.vstr "f"), line := none, endLine := none,
    title := some (.vstr "t"), description := some (.vstr "d"),
    suggestion := none, codeBlock := none }

/-- A sample raw issue missing its severity. -/
def sampleBadRawIssue : RawIssue :=
  { sampleRawIssue with severity := none }

/-- A sample malformed raw response: no summary, out-of-range effort score,
one well-formed issue, one malformed issue and one falsy entry. -/
def sampleRawResponse : RawResponse :=
  { summary := none, effortScore := some (.vnum 7),
    issues := some [some sampleRawIssue, some sampleBadRawIssue, none] }

/-! ## Lemmas about the nearest-line search -/

/-- If the bounded search returns a hit, the hit lies at some offset `k` in
the searched window, no smaller offset hits on either side, and a hit below
at offset `k` implies the line above at offset `k` was checked and missed. -/
theorem searchNearby_eq_some {valid : Finset Int} {target : Int} :
    ∀ (fuel : Nat) (offset r : Int),
    searchNearby valid target offset fuel = some r →
    ∃ k : Int, offset ≤ k ∧ k < offset + fuel ∧
      ((r = target - k ∧ r ∈ valid) ∨
       (r = target + k ∧ r ∈ valid ∧ target - k ∉ valid)) ∧
      (∀ k', offset ≤ k' → k' < k → target - k' ∉ valid ∧ target + k' ∉ valid) := by
  intro fuel
  induction fuel with
  | zero => intro offset r h; simp [searchNearby] at h
  | succ n ih =>
    intro offset r h
    rw [searchNearby] at h
    by_cases h1 : target - offset ∈ valid
    · rw [if_pos h1] at h
      refine ⟨offset, le_refl _, by omega, Or.inl ⟨(Option.some.inj h).symm, ?_⟩, ?_⟩
      · exact (Option.some.inj h) ▸ h1
      · intro k' hk1 hk2; omega
    · rw [if_neg h1] at h
      by_cases h2 : target + offset ∈ valid
      · rw [if_pos h2] at h
        refine ⟨offset, le_refl _, by omega,
          Or.inr ⟨(Option.some.inj h).symm, ?_, h1⟩, ?_⟩
        · exact (Option.some.inj h) ▸ h2
        · intro k' hk1 hk2; omega
      · rw [if_neg h2] at h
        obtain ⟨k, hk1, hk2, hk3, hk4⟩ := ih (offset + 1) r h
        refine ⟨k, by omega, by omega, hk3, ?_⟩
        intro k' hk1' hk2'
        rcases eq_or_lt_of_le hk1' with heq | hlt
        · rw [← heq]; exact ⟨h1, h2⟩
        · exact hk4 k' (by omega) hk2'

/-- If the bounded search misses, no offset in the searched window hits on
either side. -/
theorem searchNearby_eq_none {valid : Finset Int} {target : Int} :
    ∀ (fuel : Nat) (offset : Int),
    searchNearby valid target offset fuel = none →
    ∀ k : Int, offset ≤ k → k < offset + fuel →
      target - k ∉ valid ∧ target + k ∉ valid := by
  intro fuel
  induction fuel with
  | zero => intro offset _ k hk1 hk2; omega
  | succ n ih =>
    intro offset h k hk1 hk2
    rw [searchNearby] at h
    by_cases h1 : target - offset ∈ valid
    · rw [if_pos h1] at h; exact absurd h (by simp)
    · rw [if_neg h1] at h
      by_cases h2 : target + offset ∈ valid
      · rw [if_pos h2] at h; exact absurd h (by simp)
      · rw [if_neg h2] at h
        rcases eq_or_lt_of_le hk1 with heq | hlt
        · rw [← heq]; exact ⟨h1, h2⟩
        · exact ih (offset + 1) h k (by omega) (by omega)

/-- `findNearestValidLine` depends on the index only through its new-line
validity set. -/
theorem findNearestValidLine_eq_of_validNewLines {idx : ParsedDiff}
    {s : Finset Int} (h : idx.validNewLines = s) (t : Int) (d : Nat) :
    findNearestValidLine t idx d =
      findNearestValidLine t { validNewLines := s, validOldLines := ∅, hunks := [] } d := by
  unfold findNearestValidLine
  rw [h]

/-- C1: for every target line, diff index and `maxDistance` `d`,
`findNearestValidLine` returns the target unchanged when it is already in
the new-line validity set; any line it returns is valid, lies within `d` of
the target, is at minimal distance among all valid lines, and at equal
distance the line above is preferred (a hit below implies the mirror line
above is invalid); it returns `none` only when every valid line is farther
than `d` from the target.  In particular, for an index whose new-line
validity set is exactly `{5, 6}`, resolving 4 at distance 3 yields 5 and
resolving 8 at distance 1 is unresolved. -/
theorem C1_findNearestValidLine_spec :
    ∀ (target : Int) (d : Nat) (idx : ParsedDiff),
    (target ∈ idx.validNewLines → findNearestValidLine target idx d = some target) ∧
    (∀ r, findNearestValidLine target idx d = some r →
      r ∈ idx.validNewLines ∧ (r - target).natAbs ≤ d ∧
      (∀ l ∈ idx.validNewLines, (r - target).natAbs ≤ (l - target).natAbs) ∧
      (target < r → 2 * target - r ∉ idx.validNewLines)) ∧
    (findNearestValidLine target idx d = none →
      ∀ l ∈ idx.validNewLines, d < (l - target).natAbs) ∧
    (idx.validNewLines = {5, 6} →
      findNearestValidLine 4 idx 3 = some 5 ∧ findNearestValidLine 8 idx 1 = none) := by
  intro target d idx
  refine ⟨?_, ?_, ?_, ?_⟩
  · intro ht; unfold findNearestValidLine; rw [if_pos ht]
  · intro r h
    unfold findNearestValidLine at h
    by_cases ht : target ∈ idx.validNewLines
    · rw [if_pos ht] at h
      obtain rfl : target = r := Option.some.inj h
      refine ⟨ht, by simp, ?_, ?_⟩
      · intro l _; simp
      · intro hlt; exact absurd hlt (lt_irrefl _)
    · rw [if_neg ht] at h
      obtain ⟨k, hk1, hk2, hk3, hk4⟩ := searchNearby_eq_some d 1 r h
      rcases hk3 with ⟨hr, hmem⟩ | ⟨hr, hmem, hmiss⟩
      · subst hr
        refine ⟨hmem, by omega, ?_, ?_⟩
        · intro l hl
          by_contra hc
          push_neg at hc
          have hn0 : (l - target).natAbs ≠ 0 := by
            intro h0
            have : l = target := by omega
            exact ht (this ▸ hl)
          have hb := hk4 ((l - target).natAbs : Int) (by omega) (by omega)
          rcases Int.natAbs_eq (l - target) with hs | hs
          · have hl' : l = target + ((l - target).natAbs : Int) := by omega
            exact hb.2 (hl' ▸ hl)
          · have hl' : l = target - ((l - target).natAbs : Int) := by omega
            exact hb.1 (hl' ▸ hl)
        · intro hlt; exact absurd hlt (by omega)
      · subst hr
        refine ⟨hmem, by omega, ?_, ?_⟩
        · intro l hl
          by_contra hc
          push_neg at hc
          have hn0 : (l - target).natAbs ≠ 0 := by
            intro h0
            have : l = target := by omega
            exact ht (this ▸ hl)
          have hb := hk4 ((l - target).natAbs : Int) (by omega) (by omega)
          rcases Int.natAbs_eq (l - target) with hs | hs
          · have hl' : l = target + ((l - target).natAbs : Int) := by omega
            exact hb.2 (hl' ▸ hl)
          · have hl' : l = target - ((l - target).natAbs : Int) := by omega
            exact hb.1 (hl' ▸ hl)
        · intro _
          have heq : 2 * target - (target + k) = target - k := by omega
          rw [heq]; exact hmiss
  · intro h l hl
    unfold findNearestValidLine at h
    by_cases ht : target ∈ idx.validNewLines
    · rw [if_pos ht] at h; exact absurd h (by simp)
    · rw [if_neg ht] at h
      have hmisses := searchNearby_eq_none d 1 h
      by_contra hc
      push_neg at hc
      have hn0 : (l - target).natAbs ≠ 0 := by
        intro h0
        have : l = target := by omega
        exact ht (this ▸ hl)
      have hb := hmisses ((l - target).natAbs : Int) (by omega) (by omega)
      rcases Int.natAbs_eq (l - target) with hs | hs
      · have hl' : l = target + ((l - target).natAbs : Int) := by omega
        exact hb.2 (hl' ▸ hl)
      · have hl' : l = target - ((l - target).natAbs : Int) := by omega
        exact hb.1 (hl' ▸ hl)
  · intro hvn
    constructor
    · rw [findNearestValidLine_eq_of_validNewLines hvn 4 3]; decide
    · rw [findNearestValidLine_eq_of_validNewLines hvn 8 1]; decide

/-- Witness for C1 at the concrete index with validity set `{5, 6}`. -/
theorem C1_findNearestValidLine_witness :
    findNearestValidLine 4 ⟨{5, 6}, ∅, []⟩ 3 = some 5 ∧
    findNearestValidLine 8 ⟨{5, 6}, ∅, []⟩ 1 = none :=
  (C1_findNearestValidLine_spec 0 0 ⟨{5, 6}, ∅, []⟩).2.2.2 rfl

/-- C2: `parsePatch` is a total function into `ParsedDiff` (it cannot raise
an error), and an absent or empty patch yields the empty index: both
validity sets empty and no hunks. -/
theorem C2_parsePatch_total_empty :
    ∀ p : Option String, (p = none ∨ p = some "") →
      (parsePatch p).validNewLines = ∅ ∧ (parsePatch p).validOldLines = ∅ ∧
      (parsePatch p).hunks = [] := by
  rintro p (rfl | rfl)
  · exact ⟨rfl, rfl, rfl⟩
  · refine ⟨?_, ?_, ?_⟩ <;> simp [parsePatch, emptyParsedDiff]

/-- Witness for C2 at the absent patch. -/
theorem C2_parsePatch_total_empty_witness :
    (parsePatch none).validNewLines = ∅ ∧ (parsePatch none).validOldLines = ∅ ∧
    (parsePatch none).hunks = [] :=
  C2_parsePatch_total_empty none (Or.inl rfl)

/-! ## Lemmas about context-only patches -/

/-- A context line is empty or starts with a space character. -/
theorem contextLine_shape (l : String) (h : isContextLine l = true) :
    l.toList = [] ∨ ∃ t, l.toList = ' ' :: t := by
  unfold isContextLine at h
  rcases Bool.or_eq_true_iff.mp h with h1 | h2
  · unfold strStartsWith at h1
    have hsp : " ".toList = [' '] := rfl
    rw [hsp] at h1
    cases hc : l.toList with
    | nil => rw [hc] at h1; simp [List.isPrefixOf] at h1
    | cons c t =>
      rw [hc] at h1
      simp [List.isPrefixOf] at h1
      right
      exact ⟨t, by rw [← h1]⟩

  · left
    have : l = "" := by
      cases l with
      | mk data => simpa using h2
    rw [this]; rfl

/-- A context line is not a hunk header. -/
theorem ctx_not_header (l : String) (h : isContextLine l = true) :
    matchHunkHeaderChars l.toList = none := by
  rcases contextLine_shape l h with h0 | ⟨t, h0⟩ <;> rw [h0]
  · rfl
  · simp [matchHunkHeaderChars]

/-- A context line does not start with `+`. -/
theorem ctx_not_add (l : String) (h : isContextLine l = true) :
    strStartsWith l "+" = false := by
  have hpl : "+".toList = ['+'] := rfl
  rcases contextLine_shape l h with h0 | ⟨t, h0⟩ <;>
  · have h0' : l.data = _ := h0
    simp [strStartsWith, hpl, h0', List.isPrefixOf]

/-- A context line does not start with `-`. -/
theorem ctx_not_remove (l : String) (h : isContextLine l = true) :
    strStartsWith l "-" = false := by
  have hpl : "-".toList = ['-'] := rfl
  rcases contextLine_shape l h with h0 | ⟨t, h0⟩ <;>
  · have h0' : l.data = _ := h0
    simp [strStartsWith, hpl, h0', List.isPrefixOf]

/-- On a context line, with a hunk open, `processLine` records both line
numbers and increments both counters. -/
theorem processLine_context (st : ParseState) (hk : DiffHunk)
    (hh : st.currentHunk = some hk) (l : String) (hl : isContextLine l = true) :
    processLine st l = ctxStep st hk := by
  have h1 := ctx_not_header l hl
  have h2 := ctx_not_add l hl
  have h3 := ctx_not_remove l hl
  have h4 : (strStartsWith l " " || l == "") = true := hl
  unfold processLine ctxStep
  rw [h1, hh]
  simp [h2, h3, h4]

/-- Folding `processLine` over context lines only: the hunk stays open, the
hunk list is unchanged, and each validity set gains exactly the next
`ls.length` consecutive line numbers starting at the respective counter. -/
theorem ctx_fold :
    ∀ (ls : List String), (∀ l ∈ ls, isContextLine l = true) →
    ∀ (st : ParseState) (hk : DiffHunk), st.currentHunk = some hk →
    ((ls.foldl processLine st).currentHunk.isSome = true) ∧
    ((ls.foldl processLine st).result.hunks = st.result.hunks) ∧
    (∀ x : Int, x ∈ (ls.foldl processLine st).result.validNewLines ↔
      x ∈ st.result.validNewLines ∨ ∃ j : Nat, j < ls.length ∧ x = st.newLineNum + j) ∧
    (∀ x : Int, x ∈ (ls.foldl processLine st).result.validOldLines ↔
      x ∈ st.result.validOldLines ∨ ∃ j : Nat, j < ls.length ∧ x = st.oldLineNum + j) := by
  intro ls
  induction ls with
  | nil =>
    intro _ st hk hh
    refine ⟨by rw [List.foldl_nil, hh]; rfl, rfl, ?_, ?_⟩ <;> intro x <;> simp
  | cons l t ih =>
    intro hctx st hk hh
    rw [List.foldl_cons, processLine_context st hk hh l (hctx l (List.mem_cons_self l t))]
    obtain ⟨ihk, ihh, ihn, iho⟩ :=
      ih (fun x hx => hctx x (List.mem_cons_of_mem l hx)) (ctxStep st hk) _ rfl
    refine ⟨ihk, by rw [ihh]; rfl, ?_, ?_⟩
    · intro x
      rw [ihn x]
      simp only [ctxStep, Finset.mem_insert, List.length_cons]
      constructor
      · rintro ((h | h) | ⟨j, hj, rfl⟩)
        · exact Or.inr ⟨0, by omega, by omega⟩
        · exact Or.inl h
        · exact Or.inr ⟨j + 1, by omega, by omega⟩
      · rintro (h | ⟨j, hj, rfl⟩)
        · exact Or.inl (Or.inr h)
        · rcases j with _ | j
          · exact Or.inl (Or.inl (by omega))
          · exact Or.inr ⟨j, by omega, by omega⟩
    · intro x
      rw [iho x]
      simp only [ctxStep, Finset.mem_insert, List.length_cons]
      constructor
      · rintro ((h | h) | ⟨j, hj, rfl⟩)
        · exact Or.inr ⟨0, by omega, by omega⟩
        · exact Or.inl h
        · exact Or.inr ⟨j + 1, by omega, by omega⟩
      · rintro (h | ⟨j, hj, rfl⟩)
        · exact Or.inl (Or.inr h)
        · rcases j with _ | j
          · exact Or.inl (Or.inl (by omega))
          · exact Or.inr ⟨j, by omega, by omega⟩

/-- `closeHunk` does not touch the validity sets. -/
theorem closeHunk_validNewLines (r : ParsedDiff) (h : Option DiffHunk) :
    (closeHunk r h).validNewLines = r.validNewLines := by
  cases h <;> rfl

theorem closeHunk_validOldLines (r : ParsedDiff) (h : Option DiffHunk) :
    (closeHunk r h).validOldLines = r.validOldLines := by
  cases h <;> rfl

/-- C3 (amended): for every patch consisting of a single hunk header whose
declared old and new start are both 1, followed only by context lines, `N`
of them, the index built by `parsePatch` has new-line and old-line validity
sets both exactly `{1..N}`.  (As stated over an arbitrary hunk header the
claim fails: the sets start at the header's declared start, see the
counterexample.) -/
theorem C3_contextPatch_validity_sets :
    ∀ (s header : String) (oc nc : Option Nat) (ls : List String),
    splitLines s = header :: ls →
    matchHunkHeaderChars header.toList = some (1, oc, 1, nc) →
    (∀ l ∈ ls, isContextLine l = true) →
    (parsePatch (some s)).validNewLines = Finset.Icc (1 : Int) ls.length ∧
    (parsePatch (some s)).validOldLines = Finset.Icc (1 : Int) ls.length := by
  intro s header oc nc ls hsplit hheader hctx
  by_cases hs : s = ""
  · subst hs
    have hhd : header = "" := by
      have h1 : splitLines "" = [""] := rfl
      rw [h1] at hsplit
      exact ((List.cons.inj hsplit).1).symm
    rw [hhd] at hheader
    have hnone : matchHunkHeaderChars "".toList = none := rfl
    rw [hnone] at hheader
    exact Option.noConfusion hheader
  · have hp : parsePatch (some s) = parsePatchLines (splitLines s) := by
      unfold parsePatch
      simp [hs]
    rw [hp, hsplit]
    unfold parsePatchLines
    rw [List.foldl_cons]
    have hstep : processLine
        { result := emptyParsedDiff, currentHunk := none, oldLineNum := 0, newLineNum := 0 }
        header =
        { result := emptyParsedDiff
          currentHunk := some { lines := [], newStart := 1, newCount := ((nc.getD 1 : Nat) : Int) }
          oldLineNum := 1
          newLineNum := 1 } := by
      unfold processLine
      rw [hheader]
      rfl
    rw [hstep]
    obtain ⟨-, -, hnew, hold⟩ := ctx_fold ls hctx
      { result := emptyParsedDiff
        currentHunk := some { lines := [], newStart := 1, newCount := ((nc.getD 1 : Nat) : Int) }
        oldLineNum := 1
        newLineNum := 1 } _ rfl
    constructor
    · rw [closeHunk_validNewLines]
      apply Finset.ext
      intro x
      rw [hnew x, Finset.mem_Icc]
      simp only [emptyParsedDiff, Finset.not_mem_empty, false_or]
      constructor
      · rintro ⟨j, hj, rfl⟩; omega
      · rintro ⟨h1, h2⟩; exact ⟨(x - 1).toNat, by omega, by omega⟩
    · rw [closeHunk_validOldLines]
      apply Finset.ext
      intro x
      rw [hold x, Finset.mem_Icc]
      simp only [emptyParsedDiff, Finset.not_mem_empty, false_or]
      constructor
      · rintro ⟨j, hj, rfl⟩; omega
      · rintro ⟨h1, h2⟩; exact ⟨(x - 1).toNat, by omega, by omega⟩

/-- Witness for the amended C3 at the concrete patch
`"@@ -1,2 +1,2 @@\n a\n b"` (two context lines). -/
theorem C3_contextPatch_validity_sets_witness :
    (parsePatch (some "@@ -1,2 +1,2 @@\n a\n b")).validNewLines = Finset.Icc (1 : Int) 2 ∧
    (parsePatch (some "@@ -1,2 +1,2 @@\n a\n b")).validOldLines = Finset.Icc (1 : Int) 2 :=
  C3_contextPatch_validity_sets "@@ -1,2 +1,2 @@\n a\n b" "@@ -1,2 +1,2 @@"
    (some 2) (some 2) [" a", " b"] (by decide) (by decide) (by decide)

/-- Counterexample to C3 as stated: the patch `"@@ -10,2 +10,2 @@\n a\n b"`
is a single hunk header followed by `N = 2` context lines, yet its new-line
validity set is `{10, 11}`, not `{1, 2}`. -/
theorem C3_counterexample :
    matchHunkHeaderChars ("@@ -10,2 +10,2 @@".toList) = some (10, some 2, 10, some 2) ∧
    splitLines "@@ -10,2 +10,2 @@\n a\n b" = ["@@ -10,2 +10,2 @@", " a", " b"] ∧
    (∀ l ∈ [" a", " b"], isContextLine l = true) ∧
    (parsePatch (some "@@ -10,2 +10,2 @@\n a\n b")).validNewLines ≠ Finset.Icc (1 : Int) 2 ∧
    (parsePatch (some "@@ -10,2 +10,2 @@\n a\n b")).validNewLines = {10, 11} := by
  refine ⟨by decide, by decide, by decide, by decide, by decide⟩

/-! ## Lemmas about inline comment publication -/

/-- Every comment accumulated by the validation loop was already in the
accumulator or stems from one of the processed requests. -/
theorem buildValid_mem_aux (fd : String → Option ParsedDiff) :
    ∀ (comments : List ReviewComment) (acc : List ReviewComment × Nat)
      (p : ReviewComment),
    p ∈ (comments.foldl (processComment fd) acc).1 →
    p ∈ acc.1 ∨ ∃ c ∈ comments, p.path = c.path ∧ p.side = c.side ∧
      ∃ pd, fd c.path = some pd ∧ findNearestValidLine c.line pd 3 = some p.line ∧
      (p.line = c.line → p.body = c.body) ∧
      (p.line ≠ c.line → p.body = provenanceNote c.line c.body) := by
  intro comments
  induction comments with
  | nil => intro acc p h; exact Or.inl h
  | cons c t ih =>
    intro acc p h
    rw [List.foldl_cons] at h
    rcases ih (processComment fd acc c) p h with hacc | ⟨c', hc', hprop⟩
    · unfold processComment at hacc
      cases hfd : fd c.path with
      | none => rw [hfd] at hacc; exact Or.inl hacc
      | some pd =>
        rw [hfd] at hacc
        dsimp only at hacc
        cases hres : findNearestValidLine c.line pd 3 with
        | none => rw [hres] at hacc; exact Or.inl hacc
        | some v =>
          rw [hres] at hacc
          dsimp only at hacc
          rcases List.mem_append.mp hacc with h1 | h2
          · exact Or.inl h1
          · have hp : p = ReviewComment.mk c.path v
                (if v = c.line then c.body else provenanceNote c.line c.body) c.side := by
              simpa using h2
            right
            refine ⟨c, List.mem_cons_self c t, by rw [hp], by rw [hp], pd, hfd, ?_, ?_, ?_⟩
            · rw [hp]; exact hres
            · intro heq
              rw [hp] at heq ⊢
              exact if_pos heq
            · intro hne
              rw [hp] at hne ⊢
              exact if_neg hne
    · exact Or.inr ⟨c', List.mem_cons_of_mem c hc', hprop⟩

/-- C4: every inline comment actually published corresponds to a requested
comment with the same path and side, its line being the resolved line for
the requested line; when the resolved line differs from the requested one
the published body is the original body with the provenance note citing the
originally requested line prepended, and when they coincide the body is
published unchanged. -/
theorem C4_postInlineComments_provenance :
    ∀ (fd : String → Option ParsedDiff) (comments : List ReviewComment)
      (p : ReviewComment),
    p ∈ (buildValidComments fd comments).1 →
    ∃ c ∈ comments, p.path = c.path ∧ p.side = c.side ∧
      ∃ pd, fd c.path = some pd ∧ findNearestValidLine c.line pd 3 = some p.line ∧
      (p.line = c.line → p.body = c.body) ∧
      (p.line ≠ c.line → p.body = provenanceNote c.line c.body) := by
  intro fd comments p h
  rcases buildValid_mem_aux fd comments ([], 0) p h with h0 | hok
  · exact absurd h0 (List.not_mem_nil p)
  · exact hok

/-- Witness for C4: a comment requested at line 4 against a diff whose
valid lines are `{5, 6}` is published at line 5 with the provenance note
prepended. -/
theorem C4_postInlineComments_provenance_witness :
    ∃ c ∈ [({ path := "f.ts", line := 4, body := "b", side := "RIGHT" } : ReviewComment)],
      "f.ts" = c.path ∧ "RIGHT" = c.side ∧
      ∃ pd, some (⟨{5, 6}, ∅, []⟩ : ParsedDiff) = some pd ∧
        findNearestValidLine c.line pd 3 = some 5 ∧
        ((5 : Int) = c.line → provenanceNote 4 "b" = c.body) ∧
        ((5 : Int) ≠ c.line → provenanceNote 4 "b" = provenanceNote c.line c.body) :=
  C4_postInlineComments_provenance (fun _ => some ⟨{5, 6}, ∅, []⟩)
    [{ path := "f.ts", line := 4, body := "b", side := "RIGHT" }]
    { path := "f.ts", line := 5, body := provenanceNote 4 "b", side := "RIGHT" }
    (by decide)

/-! ## Severity filter and effort gate -/

/-- C5: with `min_severity = "warning"`, the severity filter keeps exactly
the critical and warning issues and drops the suggestion and nitpick ones,
for any issue list drawn from the four known severities.  The decision is
by rank in the fixed order (critical, rank 0, passes the rank-1 cutoff even
though it is not string-equal to "warning"). -/
theorem C5_filterBySeverity_warning :
    ∀ issues : List ReviewIssue,
    (∀ i ∈ issues, i.severity = "critical" ∨ i.severity = "warning" ∨
      i.severity = "suggestion" ∨ i.severity = "nitpick") →
    filterBySeverity "warning" issues =
      issues.filter (fun i => i.severity == "critical" || i.severity == "warning") := by
  intro issues h
  unfold filterBySeverity
  apply List.filter_congr
  intro i hi
  rcases h i hi with h1 | h1 | h1 | h1 <;> rw [h1] <;> rfl

/-- Witness for C5 on one issue of each severity. -/
theorem C5_filterBySeverity_warning_witness :
    filterBySeverity "warning"
      [{ severity := "critical", category := "bugs", file := "f", line := none,
         endLine := none, title := "t1", description := "d1", suggestion := none,
         codeBlock := none },
       { severity := "warning", category := "bugs", file := "f", line := none,
         endLine := none, title := "t2", description := "d2", suggestion := none,
         codeBlock := none },
       { severity := "suggestion", category := "bugs", file := "f", line := none,
         endLine := none, title := "t3", description := "d3", suggestion := none,
         codeBlock := none },
       { severity := "nitpick", category := "bugs", file := "f", line := none,
         endLine := none, title := "t4", description := "d4", suggestion := none,
         codeBlock := none }] =
      [{ severity := "critical", category := "bugs", file := "f", line := none,
         endLine := none, title := "t1", description := "d1", suggestion := none,
         codeBlock := none },
       { severity := "warning", category := "bugs", file := "f", line := none,
         endLine := none, title := "t2", description := "d2", suggestion := none,
         codeBlock := none }] := by
  rw [C5_filterBySeverity_warning _ (by decide)]
  decide

/-- C6: a response whose effort score is strictly below the configured
`skip_if_effort_below` threshold is skipped with an empty issue list and a
reason citing both the score and the threshold, regardless of its issues;
otherwise the gate proceeds to severity filtering, not skipped. -/
theorem C6_effort_gate :
    ∀ (config : ReviewConfig) (response : ReviewResponse),
    (response.effortScore < config.skip_if_effort_below →
      (analyzeResponse config response).skipped = true ∧
      (analyzeResponse config response).filteredIssues = [] ∧
      (analyzeResponse config response).skipReason =
        some ("PR effort score (" ++ toString response.effortScore ++
          ") below threshold (" ++ toString config.skip_if_effort_below ++ ")")) ∧
    (config.skip_if_effort_below ≤ response.effortScore →
      (analyzeResponse config response).skipped = false ∧
      (analyzeResponse config response).filteredIssues =
        filterBySeverity config.min_severity response.issues ∧
      (analyzeResponse config response).skipReason = none) := by
  intro config response
  constructor
  · intro h
    unfold analyzeResponse
    rw [if_pos h]
    exact ⟨rfl, rfl, rfl⟩
  · intro h
    unfold analyzeResponse
    rw [if_neg (not_lt.mpr h)]
    exact ⟨rfl, rfl, rfl⟩

/-- Witness for C6: score 2 against threshold 3 skips; score 3 against
threshold 3 does not. -/
theorem C6_effort_gate_witness :
    (analyzeResponse ⟨"warning", 3⟩ ⟨"s", 2, []⟩).skipped = true ∧
    (analyzeResponse ⟨"warning", 3⟩ ⟨"s", 3, []⟩).skipped = false :=
  ⟨((C6_effort_gate ⟨"warning", 3⟩ ⟨"s", 2, []⟩).1 (by decide)).1,
   ((C6_effort_gate ⟨"warning", 3⟩ ⟨"s", 3, []⟩).2 (by decide)).1⟩

/-! ## Inline comment projection -/

/-- C7: the inline-comment list contains one comment per issue carrying a
line number up to the configured maximum (length `min max #eligible`, hence
never above the maximum), and its (path, line) projection is exactly the
first `max` of the eligible issues' (file, line) pairs in arrival order — a
prefix of the full eligible projection, with no re-sorting. -/
theorem C7_formatInlineComments_spec :
    ∀ (maxComments : Nat) (issues : List ReviewIssue),
    (formatInlineComments maxComments issues).length ≤ maxComments ∧
    (formatInlineComments maxComments issues).length =
      min maxComments (issues.filter (fun i => i.line.isSome)).length ∧
    (formatInlineComments maxComments issues).map (fun c => (c.path, c.line)) =
      ((issues.filter (fun i => i.line.isSome)).map
        (fun i => (i.file, i.line.getD 0))).take maxComments ∧
    ∃ rest,
      (formatInlineComments maxComments issues).map (fun c => (c.path, c.line)) ++ rest =
        (issues.filter (fun i => i.line.isSome)).map (fun i => (i.file, i.line.getD 0)) := by
  intro m issues
  refine ⟨?_, ?_, ?_, ?_⟩
  · unfold formatInlineComments
    rw [List.length_map, List.length_take]
    exact Nat.min_le_left _ _
  · unfold formatInlineComments
    rw [List.length_map, List.length_take]
  · unfold formatInlineComments
    rw [List.map_take, List.map_take, List.map_map]
    rfl
  · refine ⟨((issues.filter (fun i => i.line.isSome)).map
      (fun i => (i.file, i.line.getD 0))).drop m, ?_⟩
    unfold formatInlineComments
    rw [List.map_take, List.map_take, List.map_map]
    exact List.take_append_drop m
      ((issues.filter (fun i => i.line.isSome)).map (fun i => (i.file, i.line.getD 0)))

/-! ## Lemmas about related-file discovery -/

/-- One sibling step adds at most one entry, and any added entry's path is
outside the exclusion set. -/
theorem siblingStep_spec (env : PlatformEnv) (fp : String) (excl : Finset String)
    (acc : List FileContext) (sp : String) :
    (siblingStep env fp excl acc sp).length ≤ acc.length + 1 ∧
    ∀ fc ∈ siblingStep env fp excl acc sp, fc ∈ acc ∨ fc.path ∉ excl := by
  unfold siblingStep
  by_cases h : sp ∈ excl ∨ sp = fp
  · rw [if_pos h]
    exact ⟨by omega, fun fc hfc => Or.inl hfc⟩
  · rw [if_neg h]
    push_neg at h
    cases env.getFileContent sp with
    | none => exact ⟨Nat.le_succ _, fun fc hfc => Or.inl hfc⟩
    | some content =>
      constructor
      · show (acc ++ [FileContext.mk sp (truncateForContext content 100) "sibling"]).length ≤
          acc.length + 1
        rw [List.length_append]
        simp
      · intro fc hfc
        have hfc' : fc ∈ acc ++ [FileContext.mk sp (truncateForContext content 100) "sibling"] :=
          hfc
        rcases List.mem_append.mp hfc' with h1 | h2
        · exact Or.inl h1
        · right
          have hfc2 : fc = FileContext.mk sp (truncateForContext content 100) "sibling" := by
            simpa using h2
          rw [hfc2]
          exact h.1

/-- The sibling fold adds at most one entry per candidate and only entries
outside the exclusion set. -/
theorem siblingFold_spec (env : PlatformEnv) (fp : String) (excl : Finset String) :
    ∀ (l : List String) (acc : List FileContext),
    ((l.foldl (siblingStep env fp excl) acc).length ≤ acc.length + l.length) ∧
    (∀ fc ∈ l.foldl (siblingStep env fp excl) acc, fc ∈ acc ∨ fc.path ∉ excl) := by
  intro l
  induction l with
  | nil => intro acc; exact ⟨by simp, fun fc h => Or.inl h⟩
  | cons a t ih =>
    intro acc
    rw [List.foldl_cons]
    obtain ⟨hlen, hmem⟩ := ih (siblingStep env fp excl acc a)
    obtain ⟨hslen, hsmem⟩ := siblingStep_spec env fp excl acc a
    constructor
    · rw [List.length_cons]; omega
    · intro fc hfc
      rcases hmem fc hfc with h1 | h2
      · exact hsmem fc h1
      · exact Or.inr h2

/-- A sibling list never exceeds two entries. -/
theorem findSiblingFiles_len (env : PlatformEnv) (fp : String) (excl : Finset String) :
    (findSiblingFiles env fp excl).length ≤ 2 := by
  unfold findSiblingFiles
  cases env.getFilesInDirectory (env.dirname fp)
      (env.dirname fp ++ "/*" ++ env.extname fp) with
  | none => simp
  | some siblings =>
    have h := (siblingFold_spec env fp excl (siblings.take 2) []).1
    have h2 : (siblings.take 2).length ≤ 2 := by
      rw [List.length_take]; exact Nat.min_le_left _ _
    simp only [List.length_nil] at h
    show (List.foldl (siblingStep env fp excl) [] (siblings.take 2)).length ≤ 2
    omega

/-- No discovered sibling has an excluded path. -/
theorem findSiblingFiles_mem (env : PlatformEnv) (fp : String) (excl : Finset String) :
    ∀ fc ∈ findSiblingFiles env fp excl, fc.path ∉ excl := by
  unfold findSiblingFiles
  cases env.getFilesInDirectory (env.dirname fp)
      (env.dirname fp ++ "/*" ++ env.extname fp) with
  | none => simp
  | some siblings =>
    intro fc hfc
    rcases (siblingFold_spec env fp excl (siblings.take 2) []).2 fc hfc with h | h
    · exact absurd h (List.not_mem_nil fc)
    · exact h

/-- The path-insertion fold only grows the seen set. -/
theorem insertFold_subset :
    ∀ (l : List FileContext) (s : Finset String),
    s ⊆ l.foldl (fun s sib => insert sib.path s) s := by
  intro l
  induction l with
  | nil => intro s; simp
  | cons a t ih =>
    intro s
    rw [List.foldl_cons]
    exact (Finset.subset_insert _ s).trans (ih (insert a.path s))

/-- Through the related-file fold, no collected entry has a path in the
initial seen set, provided the accumulator already satisfies this and its
seen set contains the initial one. -/
theorem relatedFold_spec (env : PlatformEnv) (seen0 : Finset String) :
    ∀ (files : List ChangedFile) (acc : List FileContext × Finset String),
    seen0 ⊆ acc.2 →
    (∀ fc ∈ acc.1, fc.path ∉ seen0) →
    (∀ fc ∈ (files.foldl (relatedStep env) acc).1, fc.path ∉ seen0) := by
  intro files
  induction files with
  | nil => intro acc _ h2; exact h2
  | cons f t ih =>
    intro acc hsub hmem
    rw [List.foldl_cons]
    apply ih
    · exact hsub.trans (insertFold_subset _ acc.2)
    · intro fc hfc
      unfold relatedStep at hfc
      rcases List.mem_append.mp hfc with h1 | h2
      · exact hmem fc h1
      · intro hcon
        exact findSiblingFiles_mem env f.filename acc.2 fc h2 (hsub hcon)

/-- C8: the related-file list never contains a changed file of the pull
request, is capped at 5 entries overall, and each changed file contributes
at most 2 siblings. -/
theorem C8_collectRelatedFiles_bounded :
    ∀ (env : PlatformEnv) (changedFiles : List ChangedFile),
    (collectRelatedFiles env changedFiles).length ≤ 5 ∧
    (∀ fc ∈ collectRelatedFiles env changedFiles,
      ∀ f ∈ changedFiles, fc.path ≠ f.filename) ∧
    (∀ (filePath : String) (exclude : Finset String),
      (findSiblingFiles env filePath exclude).length ≤ 2) := by
  intro env files
  refine ⟨?_, ?_, fun fp excl => findSiblingFiles_len env fp excl⟩
  · unfold collectRelatedFiles
    rw [List.length_take]
    exact Nat.min_le_left _ _
  · intro fc hfc f hf hcon
    unfold collectRelatedFiles at hfc
    have hfc' := List.take_subset 5 _ hfc
    have hnot := relatedFold_spec env ((files.map (fun f => f.filename)).toFinset) files
      ([], (files.map (fun f => f.filename)).toFinset) (subset_refl _)
      (by intro fc2 hfc2; exact absurd hfc2 (List.not_mem_nil fc2)) fc hfc'
    apply hnot
    rw [List.mem_toFinset]
    exact List.mem_map.mpr ⟨f, hf, hcon.symm⟩

/-- Witness for C8 on a one-file environment with one sibling. -/
theorem C8_collectRelatedFiles_bounded_witness :
    (collectRelatedFiles
      ⟨fun _ _ => some ["a/s1.ts"], fun _ => some "x", fun _ => "a", fun _ => ".ts"⟩
      [⟨"a/b.ts", "modified", 1, 0, none, none⟩]).length ≤ 5 ∧
    ({ path := "a/s1.ts", content := "x", role := "sibling" } : FileContext).path ≠
      "a/b.ts" :=
  ⟨(C8_collectRelatedFiles_bounded
      ⟨fun _ _ => some ["a/s1.ts"], fun _ => some "x", fun _ => "a", fun _ => ".ts"⟩
      [⟨"a/b.ts", "modified", 1, 0, none, none⟩]).1,
   (C8_collectRelatedFiles_bounded
      ⟨fun _ _ => some ["a/s1.ts"], fun _ => some "x", fun _ => "a", fun _ => ".ts"⟩
      [⟨"a/b.ts", "modified", 1, 0, none, none⟩]).2.1
      { path := "a/s1.ts", content := "x", role := "sibling" } (by decide)
      ⟨"a/b.ts", "modified", 1, 0, none, none⟩ (by decide)⟩

/-! ## Model response validation -/

/-- C9: the validated response's effort score is an integer in [1,5]
(missing and out-of-range values coerced, not rejected); a missing or
non-string summary is replaced by the default summary; every retained issue
has all five required fields present as strings; and every well-formed
issue entry is retained, malformed entries being dropped rather than
failing (`validateResponse` is total by construction). -/
theorem C9_validateResponse_spec :
    ∀ r : RawResponse,
    (1 ≤ (validateResponse r).effortScore ∧ (validateResponse r).effortScore ≤ 5) ∧
    (isStringField r.summary = false →
      (validateResponse r).summary = "Unable to generate summary.") ∧
    (∀ i ∈ (validateResponse r).issues, hasRequiredFields i = true) ∧
    (∀ oi ∈ r.issues.getD [], ∀ i : RawIssue, oi = some i →
      hasRequiredFields i = true → i ∈ (validateResponse r).issues) := by
  intro r
  refine ⟨?_, ?_, ?_, ?_⟩
  · unfold validateResponse
    dsimp only
    constructor
    · exact le_max_left 1 _
    · exact max_le (by norm_num) (min_le_left 5 _)
  · intro h
    unfold validateResponse
    dsimp only
    cases hs : r.summary with
    | none => rfl
    | some v =>
      cases v with
      | vstr s => rw [hs] at h; simp [isStringField] at h
      | vnum q => rfl
      | vother => rfl
  · intro i hi
    unfold validateResponse at hi
    dsimp only at hi
    cases hiss : r.issues with
    | none => rw [hiss] at hi; exact absurd hi (List.not_mem_nil i)
    | some l =>
      rw [hiss] at hi
      obtain ⟨oi, hoi, hfe⟩ := List.mem_filterMap.mp hi
      cases oi with
      | none => simp at hfe
      | some i' =>
        dsimp only at hfe
        by_cases hreq : hasRequiredFields i' = true
        · rw [if_pos hreq] at hfe
          obtain rfl := Option.some.inj hfe
          exact hreq
        · rw [if_neg hreq] at hfe
          exact absurd hfe (by simp)
  · intro oi hoi i hoieq hreq
    subst hoieq
    unfold validateResponse
    dsimp only
    cases hiss : r.issues with
    | none => rw [hiss] at hoi; exact absurd hoi (List.not_mem_nil _)
    | some l =>
      rw [hiss] at hoi
      simp only [Option.getD_some] at hoi
      apply List.mem_filterMap.mpr
      refine ⟨some i, hoi, ?_⟩
      dsimp only
      rw [if_pos hreq]

/-- Witness for C9 on the sample malformed response: score clamped into
range, summary defaulted, the well-formed issue retained. -/
theorem C9_validateResponse_witness :
    (1 ≤ (validateResponse sampleRawResponse).effortScore ∧
      (validateResponse sampleRawResponse).effortScore ≤ 5) ∧
    (validateResponse sampleRawResponse).summary = "Unable to generate summary." ∧
    sampleRawIssue ∈ (validateResponse sampleRawResponse).issues :=
  ⟨(C9_validateResponse_spec sampleRawResponse).1,
   (C9_validateResponse_spec sampleRawResponse).2.1 (by decide),
   (C9_validateResponse_spec sampleRawResponse).2.2.2 (some sampleRawIssue) (by decide)
     sampleRawIssue rfl (by decide)⟩

/-! ## Unknown severities bypass the filter -/

/-- `indexOf` never returns anything below -1. -/
theorem neg_one_le_jsIndexOfAux :
    ∀ (l : List String) (x : String) (n : Nat), -1 ≤ jsIndexOfAux l x n := by
  intro l
  induction l with
  | nil => intro x n; simp [jsIndexOfAux]
  | cons a t ih =>
    intro x n
    unfold jsIndexOfAux
    by_cases h : a = x
    · rw [if_pos h]; omega
    · rw [if_neg h]; exact ih x (n + 1)

/-- C10: an issue whose severity string is not one of the four known
severities gets index -1, which is ≤ every possible minimum rank, so the
filter retains it for every configured `min_severity`. -/
theorem C10_unknown_severity_bypasses :
    ∀ (minSeverity : String) (issues : List ReviewIssue) (i : ReviewIssue),
    i ∈ issues → i.severity ∉ severityOrder →
    jsIndexOf severityOrder i.severity = -1 ∧
    i ∈ filterBySeverity minSeverity issues := by
  intro ms issues i hi hunk
  have hidx : jsIndexOf severityOrder i.severity = -1 := by
    simp only [severityOrder, List.mem_cons, List.not_mem_nil, or_false, not_or] at hunk
    obtain ⟨h1, h2, h3, h4⟩ := hunk
    have h1' := Ne.symm h1
    have h2' := Ne.symm h2
    have h3' := Ne.symm h3
    have h4' := Ne.symm h4
    simp [jsIndexOf, jsIndexOfAux, severityOrder, h1', h2', h3', h4']
  refine ⟨hidx, ?_⟩
  unfold filterBySeverity
  dsimp only
  apply List.mem_filter.mpr
  refine ⟨hi, ?_⟩
  rw [hidx]
  exact decide_eq_true (neg_one_le_jsIndexOfAux severityOrder ms 0)

/-- Witness for C10: a "bogus"-severity issue passes the warning-level
filter. -/
theorem C10_unknown_severity_bypasses_witness :
    jsIndexOf severityOrder
      ({ severity := "bogus", category := "bugs", file := "f", line := none,
         endLine := none, title := "t", description := "d", suggestion := none,
         codeBlock := none } : ReviewIssue).severity = -1 ∧
    ({ severity := "bogus", category := "bugs", file := "f", line := none,
       endLine := none, title := "t", description := "d", suggestion := none,
       codeBlock := none } : ReviewIssue) ∈
      filterBySeverity "warning"
        [{ severity := "bogus", category := "bugs", file := "f", line := none,
           endLine := none, title := "t", description := "d", suggestion := none,
           codeBlock := none }] := by
  apply C10_unknown_severity_bypasses <;> decide

end Sentinel
